import Mathlib

/-!
Shallow embedding of the ironcraft Minecraft-protocol library and proofs
about its wire codec, NBT codec and packet dispatch layer.

Machine integers are modelled by their unsigned bit patterns as `Nat`
(an `i32` value is its two's-complement pattern `u < 2 ^ 32`), with
truncation written as `% 2 ^ w` exactly where the Rust code wraps.
Byte buffers are `List Nat` (each entry a byte value).  Fallible Rust
code returns `Except`; code that can also `panic!`/`todo!` or recurse
forever returns `Outcome`, which has explicit `panic` and `diverge`
results.
-/

namespace Ironcraft

/-! ## VarInt / VarLong (src/protocol_details/datatypes/var_types.rs) -/

/-- Decode loop shared by `VarInt::from_slice` (width 32) and
`VarLong::from_slice` (width 64): iterate over the bytes, or the low 7
bits of each byte into the accumulator at the current bit position
(`i |= (local & SEGMENT) << pos`, truncated to the machine width), stop
with `Ok` at the first byte whose continuation bit `0x80` is clear or
when the byte list ends, and fail once `pos` would reach the width. -/
def varLoop (width : Nat) : List Nat → Nat → Nat → Except String Nat
  | [], i, _ => Except.ok i
  | b :: rest, i, pos =>
    let i2 := i ||| ((b &&& 127) <<< pos) % 2 ^ width
    if b &&& 128 = 0 then Except.ok i2
    else if pos + 7 ≥ width then Except.error "Bit length is too long"
    else varLoop width rest i2 (pos + 7)

/-- Source `VarInt::from_slice`: reject slices longer than 5 bytes up front,
then run the accumulation loop at width 32. -/
def VarInt.from_slice (bytes : List Nat) : Except String Nat :=
  if bytes.length > 5 then Except.error "Max bytes of byte array is 5. VarInts are i32"
  else varLoop 32 bytes 0 0

/-- Source `VarLong::from_slice`: reject slices longer than 10 bytes up front,
then run the accumulation loop at width 64. -/
def VarLong.from_slice (bytes : List Nat) : Except String Nat :=
  if bytes.length > 10 then Except.error "Max bytes of byte array is 10. VarLongs are i64"
  else varLoop 64 bytes 0 0

/-- Encode loop shared by `VarInt::to_bytes` (width 32) and
`VarLong::to_bytes` (width 64) on the unsigned bit pattern `u`.
`inner & !SEGMENT == 0` is `u &&& (2 ^ width - 128) = 0` on patterns;
the final push `inner.to_le_bytes()[0]` is `u % 256`; the continuation
push is `(u &&& 127) ||| 128`; the unsigned right shift (both arms of
the source's sign split act as a logical shift on the pattern) is
`u >>> 7`. -/
def varEncode (width : Nat) (u : Nat) : List Nat :=
  if h : u &&& (2 ^ width - 128) = 0 then [u % 256]
  else ((u &&& 127) ||| 128) :: varEncode width (u >>> 7)
decreasing_by
  have hu : u ≠ 0 := by
    intro h0
    subst h0
    simp at h
  rw [Nat.shiftRight_eq_div_pow]
  exact Nat.div_lt_self (Nat.pos_of_ne_zero hu) (by norm_num)

/-- Source `VarInt::to_bytes` on the 32-bit pattern of the stored `i32`. -/
def VarInt.to_bytes (u : Nat) : List Nat := varEncode 32 u

/-- Source `VarLong::to_bytes` on the 64-bit pattern of the stored `i64`. -/
def VarLong.to_bytes (u : Nat) : List Nat := varEncode 64 u

/-- Two's-complement 32-bit pattern of an integer. -/
def fromI32 (n : Int) : Nat := (n % 2 ^ 32).toNat

/-- Two's-complement 64-bit pattern of an integer. -/
def fromI64 (n : Int) : Nat := (n % 2 ^ 64).toNat

/-- Signed value of a 32-bit pattern. -/
def toI32 (u : Nat) : Int := if u < 2 ^ 31 then (u : Int) else (u : Int) - 2 ^ 32

/-! ## Serialization infrastructure
(src/packets/serialization/serializer_error.rs, serializer_handler.rs) -/

/-- Source `SerializingErr` (serializer_error.rs). -/
inductive SerializingErr where
  | InvalidEndOfVarInt
  | VarTypeTooLong (s : String)
  | CouldNotDeserializeString
  | InputEnded
  | LeftoverInput
  | UnknownFailure
  | UniqueFailure (s : String)
deriving DecidableEq

/-- Source `McSerializer` (serializer_handler.rs): an append-only output
byte buffer. -/
structure McSerializer where
  output : List Nat
deriving DecidableEq

/-- Source `McSerializer::new`. -/
def McSerializer.new : McSerializer := ⟨[]⟩

/-- Source `McSerializer::serialize_bytes`: resize-and-copy, which appends
`input` to the output buffer. -/
def McSerializer.serialize_bytes (s : McSerializer) (input : List Nat) : McSerializer :=
  ⟨s.output ++ input⟩

/-- Source `McSerializer::serialize_u8`: push one byte. -/
def McSerializer.serialize_u8 (s : McSerializer) (b : Nat) : McSerializer :=
  ⟨s.output ++ [b]⟩

/-- Modelled from the spec: `McSerializer::merge` is not among the
provided sources (only its caller `Packet::mc_serialize` is); the spec
describes it as concatenating another buffer onto this output
buffer. -/
def McSerializer.merge (s : McSerializer) (other : McSerializer) : McSerializer :=
  ⟨s.output ++ other.output⟩

/-- Byte buffers (`&[u8]` / `Vec<u8>`). -/
abbrev ByteList := List Nat

/-- Outcome of running code that may return a value, return a
`SerializingErr`, `panic!`/`todo!`, or fail to terminate. -/
inductive Outcome (α : Type) where
  | ok (a : α)
  | err (e : SerializingErr)
  | panic (msg : String)
  | diverge

/-- Whether an outcome is a panic. -/
def Outcome.isPanic {α : Type} : Outcome α → Bool
  | .panic _ => true
  | _ => false

/-- Big-endian byte list of the low `k` bytes of `v`
(the `to_be_bytes` of a `k`-byte machine integer pattern). -/
def beBytes : Nat → Nat → List Nat
  | 0, _ => []
  | k + 1, v => beBytes k (v / 256) ++ [v % 256]

/-- Modelled from the spec: the fixed-width deserializers
(`u8::mc_deserialize` and friends) are not among the provided sources;
the spec says fixed-width integers are read big-endian with a fixed
byte count and fail with `InputEnded` if fewer bytes remain.  Reads `k`
bytes and returns their big-endian value and the rest of the input. -/
def readBE (k : Nat) (input : List Nat) : Except SerializingErr (Nat × List Nat) :=
  if k ≤ input.length then
    Except.ok ((input.take k).foldl (fun acc b => acc * 256 + b % 256) 0, input.drop k)
  else Except.error SerializingErr.InputEnded

/-- Modelled from the spec: `u8::mc_deserialize`, a one-byte read. -/
def readU8 (input : List Nat) : Except SerializingErr (Nat × List Nat) :=
  match input with
  | [] => Except.error SerializingErr.InputEnded
  | b :: rest => Except.ok (b, rest)

/-- Modelled from the spec: `McDeserializer::slice(n)` (used by the
NBT string decoder without a failure path); it yields the next `n`
bytes, or all remaining bytes when fewer than `n` remain. -/
def sliceTake (n : Nat) (input : List Nat) : List Nat × List Nat :=
  (input.take n, input.drop n)

/-! ## NBT data model (src/protocol_details/datatypes/nbt/nbt.rs)
Strings (tag names, root names and String payloads) are modelled as
their byte lists; numeric payloads as bit patterns of the stated
width; `f32`/`f64` payloads as their 4- and 8-byte bit patterns. -/

mutual
/-- Source `NbtTag`. -/
inductive NbtTag where
  | End
  | Byte (v : Nat)
  | Short (v : Nat)
  | Int (v : Nat)
  | Long (v : Nat)
  | Float (v : Nat)
  | Double (v : Nat)
  | ByteArray (v : List Nat)
  | String (s : List Nat)
  | List (l : NbtList)
  | Compound (c : NbtCompound)
  | IntArray (v : List Nat)
  | LongArray (v : List Nat)

/-- Source `NbtList`: element type id, elements, and the iterator cursor
`count`. -/
inductive NbtList where
  | mk (type_id : Nat) (list : List NbtTag) (count : Nat)

/-- Source `NbtCompound`: insertion-ordered entries (an `IndexMap`) plus the
root name. -/
inductive NbtCompound where
  | mk (map : List (List Nat × NbtTag)) (root_name : List Nat)
end

/-- Element type id of an `NbtList`. -/
def NbtList.type_id : NbtList → Nat
  | ⟨t, _, _⟩ => t

/-- Elements of an `NbtList`. -/
def NbtList.list : NbtList → List NbtTag
  | ⟨_, l, _⟩ => l

/-- Iterator cursor of an `NbtList`. -/
def NbtList.count : NbtList → Nat
  | ⟨_, _, c⟩ => c

/-- Source `NbtTag::get_type_id`. -/
def NbtTag.get_type_id : NbtTag → Nat
  | .End => 0
  | .Byte _ => 1
  | .Short _ => 2
  | .Int _ => 3
  | .Long _ => 4
  | .Float _ => 5
  | .Double _ => 6
  | .ByteArray _ => 7
  | .String _ => 8
  | .List _ => 9
  | .Compound _ => 10
  | .IntArray _ => 11
  | .LongArray _ => 12

/-- Source `NbtList::new`: type id 0 (End), empty element list, cursor 0. -/
def NbtList.new : NbtList := ⟨0, [], 0⟩

/-- Source `NbtList::add`: reject End tags; adopt the tag's type id when the
list is still typed End, otherwise reject mismatches; push. -/
def NbtList.add (l : NbtList) (tag : NbtTag) : Except String NbtList :=
  if tag.get_type_id = 0 then Except.error "END Tag not allowed in NbtList"
  else if l.type_id = 0 then Except.ok ⟨tag.get_type_id, l.list ++ [tag], l.count⟩
  else if l.type_id ≠ tag.get_type_id then Except.error "Type mismatch in NbtList"
  else Except.ok ⟨l.type_id, l.list ++ [tag], l.count⟩

/-- Source `NbtList::add_tag`: reject tags whose type id differs from the
list's; push. -/
def NbtList.add_tag (l : NbtList) (tag : NbtTag) : Except String NbtList :=
  if tag.get_type_id ≠ l.type_id then Except.error "Incompatible types"
  else Except.ok ⟨l.type_id, l.list ++ [tag], l.count⟩

/-- Source `NbtCompound::new`. -/
def NbtCompound.new (root_name : List Nat) : NbtCompound := ⟨[], root_name⟩

/-- Entries of an `NbtCompound`. -/
def NbtCompound.map : NbtCompound → List (List Nat × NbtTag)
  | ⟨m, _⟩ => m

/-- Root name of an `NbtCompound`. -/
def NbtCompound.root_name : NbtCompound → List Nat
  | ⟨_, r⟩ => r

/-- Source `McSerialize for NbtTag`.  The source's catch-all arm
`b => b.mc_serialize(serializer)?` calls the very impl being defined on
the same tag, so serializing a ByteArray, List, Compound, IntArray or
LongArray recurses unconditionally on unchanged arguments; those arms
are modelled as `diverge`.  A String payload is a `u16` byte-length
prefix plus the bytes; numeric payloads are their big-endian bytes. -/
def NbtTag.mc_serialize (tag : NbtTag) (s : McSerializer) : Outcome McSerializer :=
  match tag with
  | .End => Outcome.ok s
  | .String str =>
      Outcome.ok ((s.serialize_bytes (beBytes 2 (str.length % 2 ^ 16))).serialize_bytes str)
  | .Byte v => Outcome.ok (s.serialize_bytes (beBytes 1 v))
  | .Short v => Outcome.ok (s.serialize_bytes (beBytes 2 v))
  | .Int v => Outcome.ok (s.serialize_bytes (beBytes 4 v))
  | .Long v => Outcome.ok (s.serialize_bytes (beBytes 8 v))
  | .Float v => Outcome.ok (s.serialize_bytes (beBytes 4 v))
  | .Double v => Outcome.ok (s.serialize_bytes (beBytes 8 v))
  | _ => Outcome.diverge

/-- Source `NbtCompound::serialize_tags`: for each entry emit the tag's type
id byte, the `u16`-prefixed name, then the tag payload; finally emit
the 0 End byte. -/
def NbtCompound.serialize_tags_entries :
    List (List Nat × NbtTag) → McSerializer → Outcome McSerializer
  | [], s => Outcome.ok (s.serialize_u8 0)
  | (name, tag) :: rest, s =>
      let s1 := ((s.serialize_u8 tag.get_type_id).serialize_bytes
        (beBytes 2 (name.length % 2 ^ 16))).serialize_bytes name
      match tag.mc_serialize s1 with
      | Outcome.ok s2 => NbtCompound.serialize_tags_entries rest s2
      | Outcome.err e => Outcome.err e
      | Outcome.panic m => Outcome.panic m
      | Outcome.diverge => Outcome.diverge

/-- Source `NbtCompound::serialize_tags` on the compound's own entries. -/
def NbtCompound.serialize_tags (c : NbtCompound) (s : McSerializer) : Outcome McSerializer :=
  NbtCompound.serialize_tags_entries c.map s

/-- Source `McSerialize for NbtCompound`: compound type byte 10, the
`u16`-prefixed root name, then the entries and the End byte. -/
def NbtCompound.mc_serialize (c : NbtCompound) (s : McSerializer) : Outcome McSerializer :=
  c.serialize_tags (((s.serialize_u8 10).serialize_bytes
    (beBytes 2 (c.root_name.length % 2 ^ 16))).serialize_bytes c.root_name)

/-- Modelled from the spec: the `list_nbtvalue!` macro that generates
`NbtByteArray`/`NbtIntArray`/`NbtLongArray::mc_deserialize` is not
among the provided sources; the spec says an array payload is an `i32`
count followed by count elements of the stated primitive width.  A
non-positive signed count yields no elements. -/
def nbtArrayElems (elemWidth : Nat) :
    Nat → List Nat → Except SerializingErr (List Nat × List Nat)
  | 0, input => Except.ok ([], input)
  | k + 1, input =>
    match readBE elemWidth input with
    | Except.error e => Except.error e
    | Except.ok (v, rest) =>
      match nbtArrayElems elemWidth k rest with
      | Except.error e => Except.error e
      | Except.ok (vs, rest2) => Except.ok (v :: vs, rest2)

/-- Modelled from the spec: array deserialization (count then
elements), see `nbtArrayElems`. -/
def nbtArrayDeserialize (elemWidth : Nat) (input : List Nat) :
    Except SerializingErr (List Nat × List Nat) :=
  match readBE 4 input with
  | Except.error e => Except.error e
  | Except.ok (c, rest) => nbtArrayElems elemWidth (toI32 c).toNat rest

mutual
/-- Source `McDeserialize for NbtTag`, with an explicit `fuel` bound on the
recursion depth (the wrappers below supply more fuel than any input
can consume, and no theorem in this file depends on the `diverge`
fuel-exhaustion result).  Reads the type byte and dispatches; type 10
(Compound) is `todo!()` in the source and therefore panics. -/
def NbtTag.mc_deserializeF (fuel : Nat) (input : ByteList) : Outcome (NbtTag × ByteList) :=
  match fuel with
  | 0 => Outcome.diverge
  | fuel + 1 =>
    match readU8 input with
    | Except.error e => Outcome.err e
    | Except.ok (ty, rest) =>
      match ty with
      | 0 => Outcome.ok (NbtTag.End, rest)
      | 1 =>
        match readBE 1 rest with
        | Except.error e => Outcome.err e
        | Except.ok (v, r) => Outcome.ok (NbtTag.Byte v, r)
      | 2 =>
        match readBE 2 rest with
        | Except.error e => Outcome.err e
        | Except.ok (v, r) => Outcome.ok (NbtTag.Short v, r)
      | 3 =>
        match readBE 4 rest with
        | Except.error e => Outcome.err e
        | Except.ok (v, r) => Outcome.ok (NbtTag.Int v, r)
      | 4 =>
        match readBE 8 rest with
        | Except.error e => Outcome.err e
        | Except.ok (v, r) => Outcome.ok (NbtTag.Long v, r)
      | 5 =>
        match readBE 4 rest with
        | Except.error e => Outcome.err e
        | Except.ok (v, r) => Outcome.ok (NbtTag.Float v, r)
      | 6 =>
        match readBE 8 rest with
        | Except.error e => Outcome.err e
        | Except.ok (v, r) => Outcome.ok (NbtTag.Double v, r)
      | 8 =>
        match readBE 2 rest with
        | Except.error e => Outcome.err e
        | Except.ok (len, r) =>
          let p := sliceTake len r
          Outcome.ok (NbtTag.String p.1, p.2)
      | 7 =>
        match nbtArrayDeserialize 1 rest with
        | Except.error e => Outcome.err e
        | Except.ok (vs, r) => Outcome.ok (NbtTag.ByteArray vs, r)
      | 11 =>
        match nbtArrayDeserialize 4 rest with
        | Except.error e => Outcome.err e
        | Except.ok (vs, r) => Outcome.ok (NbtTag.IntArray vs, r)
      | 12 =>
        match nbtArrayDeserialize 8 rest with
        | Except.error e => Outcome.err e
        | Except.ok (vs, r) => Outcome.ok (NbtTag.LongArray vs, r)
      | 9 =>
        match NbtList.mc_deserializeF fuel rest with
        | Outcome.ok (l, r) => Outcome.ok (NbtTag.List l, r)
        | Outcome.err e => Outcome.err e
        | Outcome.panic m => Outcome.panic m
        | Outcome.diverge => Outcome.diverge
      | 10 => Outcome.panic "not yet implemented"
      | _ => Outcome.err (SerializingErr.UniqueFailure "Could not identify tag type")
termination_by (fuel, 0, 0)

/-- Source `McDeserialize for NbtList`: element type byte, `i32` count,
reject End type with positive count, then read the elements into a
fresh `NbtList::new()` via `add_tag`. -/
def NbtList.mc_deserializeF (fuel : Nat) (input : ByteList) : Outcome (NbtList × ByteList) :=
  match readU8 input with
  | Except.error e => Outcome.err e
  | Except.ok (t, rest) =>
    match readBE 4 rest with
    | Except.error e => Outcome.err e
    | Except.ok (len, rest2) =>
      if t = 0 ∧ 0 < toI32 len then
        Outcome.err (SerializingErr.UniqueFailure "Type cannot be END when length is positive")
      else nbtListLoopF fuel (toI32 len).toNat t NbtList.new rest2
termination_by (fuel, 2, 0)

/-- The element loop of `NbtList::mc_deserialize`
(`for _ in 0..length`): deserialize a tag, require its type id to
match the declared element type, then `add_tag` it. -/
def nbtListLoopF (fuel : Nat) (k : Nat) (t : Nat) (list : NbtList) (input : ByteList) :
    Outcome (NbtList × ByteList) :=
  match k with
  | 0 => Outcome.ok (list, input)
  | k + 1 =>
    match NbtTag.mc_deserializeF fuel input with
    | Outcome.ok (tag, rest) =>
      if tag.get_type_id ≠ t then
        Outcome.err (SerializingErr.UniqueFailure
          "Type must be the same as the type for the list")
      else
        match list.add_tag tag with
        | Except.error _ =>
            Outcome.err (SerializingErr.UniqueFailure "Could not push tag to list")
        | Except.ok list2 => nbtListLoopF fuel k t list2 rest
    | Outcome.err e => Outcome.err e
    | Outcome.panic m => Outcome.panic m
    | Outcome.diverge => Outcome.diverge
termination_by (fuel, 1, k)
end

/-- Source `NbtTag::mc_deserialize`, supplied with enough fuel for its
input. -/
def NbtTag.mc_deserialize (input : ByteList) : Outcome (NbtTag × ByteList) :=
  NbtTag.mc_deserializeF (input.length + 1) input

/-- Source `NbtList::mc_deserialize`, supplied with enough fuel for its
input. -/
def NbtList.mc_deserialize (input : List Nat) : Outcome (NbtList × List Nat) :=
  NbtList.mc_deserializeF (input.length + 1) input

/-- Source `McDeserialize for NbtCompound`: read the type byte, then
`todo!()` — the body is unimplemented in the source and panics on
every input whose first byte read succeeds. -/
def NbtCompound.mc_deserialize (input : List Nat) : Outcome (NbtCompound × List Nat) :=
  match readU8 input with
  | Except.error e => Outcome.err e
  | Except.ok _ => Outcome.panic "not yet implemented"

/-- The invariant claimed for `NbtList`: every element's type tag
equals the list's `type_id`, and a non-empty list is not typed End. -/
def listInvariant (l : NbtList) : Prop :=
  (∀ tag ∈ l.list, tag.get_type_id = l.type_id) ∧ (l.list ≠ [] → l.type_id ≠ 0)

/-! ## Packet layer (sandstone/src/protocol/packet_definer.rs)
The `packets!` macro invocation that lists the concrete packet schemas
is not among the provided sources; following the spec's Handshake
packet (§6) and Status scenario (§8), the macro is instantiated here
with the Handshake packet (state Handshaking, direction Server, id
0x00, fields VarInt protocol_version, String server_address, u16
server_port, VarInt next_state) and the empty StatusRequest packet
(state Status, direction Server, id 0x00). -/

/-- Source `PacketDirection`. -/
inductive PacketDirection where
  | SERVER
  | CLIENT
  | BIDIRECTIONAL
deriving DecidableEq

/-- Source `PacketState`. -/
inductive PacketState where
  | STATUS
  | HANDSHAKING
  | LOGIN
  | CONFIGURATION
  | PLAY
deriving DecidableEq

/-- Source `PacketState::from_id`: only 1 (Status) and 2 (Login) are
decodable from a byte. -/
def PacketState.from_id (id : Nat) : Option PacketState :=
  match id with
  | 1 => some PacketState.STATUS
  | 2 => some PacketState.LOGIN
  | _ => none

/-- Source `PacketState::get_id`. -/
def PacketState.get_id : PacketState → Option Nat
  | PacketState.STATUS => some 1
  | PacketState.LOGIN => some 2
  | _ => none

/-- Modelled from the spec: `McSerialize for VarInt` is not among the
provided sources; per the spec the VarInt encoding algorithm (§4.1) is
the one implemented by `VarInt::to_bytes`, appended to the output. -/
def VarInt.mc_serialize (v : Nat) (s : McSerializer) : Except SerializingErr McSerializer :=
  Except.ok (s.serialize_bytes (VarInt.to_bytes v))

/-- Modelled from the spec: `McDeserialize for VarInt` is not among
the provided sources; per the spec decoding reads bytes until one
lacks the continuation bit, failing if the input ends mid-number
(`InputEnded`) or the bit position would exceed 32
(`VarTypeTooLong`). -/
def VarInt.mc_deserialize_loop : List Nat → Nat → Nat → Except SerializingErr (Nat × List Nat)
  | [], _, _ => Except.error SerializingErr.InputEnded
  | b :: rest, i, pos =>
    if b &&& 128 = 0 then Except.ok (i ||| ((b &&& 127) <<< pos) % 2 ^ 32, rest)
    else if pos + 7 ≥ 32 then Except.error (SerializingErr.VarTypeTooLong "VarInt")
    else VarInt.mc_deserialize_loop rest (i ||| ((b &&& 127) <<< pos) % 2 ^ 32) (pos + 7)

/-- Modelled from the spec: streaming VarInt decode, see
`VarInt.mc_deserialize_loop`. -/
def VarInt.mc_deserialize (input : List Nat) : Except SerializingErr (Nat × List Nat) :=
  VarInt.mc_deserialize_loop input 0 0

/-- Modelled from the spec: `McSerialize for String` is not among the
provided sources; per the spec a string is a VarInt byte-length prefix
followed by its bytes (the string is modelled as its byte list). -/
def StringField.mc_serialize (str : List Nat) (s : McSerializer) :
    Except SerializingErr McSerializer :=
  Except.ok ((s.serialize_bytes (VarInt.to_bytes (str.length % 2 ^ 32))).serialize_bytes str)

/-- Modelled from the spec: `McDeserialize for String` is not among
the provided sources; per the spec a VarInt byte length is read and
then that many bytes (failing with `InputEnded` when fewer remain;
UTF-8 validity of the bytes is not modelled). -/
def StringField.mc_deserialize (input : List Nat) :
    Except SerializingErr (List Nat × List Nat) :=
  match VarInt.mc_deserialize input with
  | Except.error e => Except.error e
  | Except.ok (len, rest) =>
    if (toI32 len).toNat ≤ rest.length then
      Except.ok (rest.take (toI32 len).toNat, rest.drop (toI32 len).toNat)
    else Except.error SerializingErr.InputEnded

/-- Modelled from the spec: `u16::mc_serialize`, two big-endian
bytes. -/
def U16.mc_serialize (v : Nat) (s : McSerializer) : Except SerializingErr McSerializer :=
  Except.ok (s.serialize_bytes (beBytes 2 (v % 2 ^ 16)))

/-- Modelled from the spec: `McDeserializer::sub_deserializer_length`
is not among the provided sources; per the spec it produces a bounded
child cursor of the next `n` bytes, failing when fewer remain. -/
def sub_deserializer_length (n : Nat) (input : List Nat) :
    Except SerializingErr (List Nat × List Nat) :=
  if n ≤ input.length then Except.ok (input.take n, input.drop n)
  else Except.error SerializingErr.InputEnded

/-- Source `HandshakingBody` (macro-generated body struct of the Handshake
packet): VarInt protocol_version, String server_address, u16
server_port, VarInt next_state. -/
structure HandshakingBody where
  protocol_version : Nat
  server_address : List Nat
  server_port : Nat
  next_state : Nat
deriving DecidableEq

/-- Source `StatusRequestBody` (macro-generated body struct of the empty
StatusRequest packet). -/
structure StatusRequestBody where
deriving DecidableEq

/-- The macro-generated `Packet` sum type over the instantiated
schemas. -/
inductive Packet where
  | HANDSHAKE (body : HandshakingBody)
  | STATUS_REQUEST (body : StatusRequestBody)
deriving DecidableEq

/-- Source `Packet::packet_id` (a VarInt constant per schema; pattern). -/
def Packet.packet_id : Packet → Nat
  | .HANDSHAKE _ => 0
  | .STATUS_REQUEST _ => 0

/-- Source `Packet::state`. -/
def Packet.state : Packet → PacketState
  | .HANDSHAKE _ => PacketState.HANDSHAKING
  | .STATUS_REQUEST _ => PacketState.STATUS

/-- Source `Packet::direction`. -/
def Packet.direction : Packet → PacketDirection
  | .HANDSHAKE _ => PacketDirection.SERVER
  | .STATUS_REQUEST _ => PacketDirection.SERVER

/-- Macro-generated `McSerialize for HandshakingBody`: serialize the
fields in declared order. -/
def HandshakingBody.mc_serialize (b : HandshakingBody) (s : McSerializer) :
    Except SerializingErr McSerializer :=
  match VarInt.mc_serialize b.protocol_version s with
  | Except.error e => Except.error e
  | Except.ok s1 =>
    match StringField.mc_serialize b.server_address s1 with
    | Except.error e => Except.error e
    | Except.ok s2 =>
      match U16.mc_serialize b.server_port s2 with
      | Except.error e => Except.error e
      | Except.ok s3 => VarInt.mc_serialize b.next_state s3

/-- Macro-generated `McDeserialize for HandshakingBody`: deserialize
the fields in declared order. -/
def HandshakingBody.mc_deserialize (input : List Nat) :
    Except SerializingErr (HandshakingBody × List Nat) :=
  match VarInt.mc_deserialize input with
  | Except.error e => Except.error e
  | Except.ok (pv, r1) =>
    match StringField.mc_deserialize r1 with
    | Except.error e => Except.error e
    | Except.ok (addr, r2) =>
      match readBE 2 r2 with
      | Except.error e => Except.error e
      | Except.ok (port, r3) =>
        match VarInt.mc_deserialize r3 with
        | Except.error e => Except.error e
        | Except.ok (ns, r4) => Except.ok (⟨pv, addr, port, ns⟩, r4)

/-- Macro-generated `McSerialize for StatusRequestBody`: no fields. -/
def StatusRequestBody.mc_serialize (_ : StatusRequestBody) (s : McSerializer) :
    Except SerializingErr McSerializer :=
  Except.ok s

/-- Macro-generated `McDeserialize for StatusRequestBody`. -/
def StatusRequestBody.mc_deserialize (input : List Nat) :
    Except SerializingErr (StatusRequestBody × List Nat) :=
  Except.ok (⟨⟩, input)

/-- Macro-generated `From<Packet> for HandshakingBody`: matching
variant unwraps, anything else hits `panic!("Invalid conversion")`. -/
def HandshakingBody.from_packet (p : Packet) : Outcome HandshakingBody :=
  match p with
  | Packet.HANDSHAKE b => Outcome.ok b
  | _ => Outcome.panic "Invalid conversion"

/-- The payload of a packet's body serialized into a fresh buffer (the
macro-generated per-variant serializers in declared field order). -/
def Packet.bodySerialize (p : Packet) (s : McSerializer) : Except SerializingErr McSerializer :=
  match p with
  | Packet.HANDSHAKE b => b.mc_serialize s
  | Packet.STATUS_REQUEST b => b.mc_serialize s

/-- The byte sequence the body serializers emit for a packet (used to
state the framing law; see `bodySerialize_eq`). -/
def Packet.payloadBytes : Packet → List Nat
  | Packet.HANDSHAKE b =>
    VarInt.to_bytes b.protocol_version ++
      VarInt.to_bytes (b.server_address.length % 2 ^ 32) ++ b.server_address ++
      beBytes 2 (b.server_port % 2 ^ 16) ++ VarInt.to_bytes b.next_state
  | Packet.STATUS_REQUEST _ => []

/-- Source `McSerialize for Packet`: serialize the body into a fresh
`length_serializer`, then write `VarInt(payload_len + id_len)`, the
packet id bytes, and merge the payload buffer. -/
def Packet.mc_serialize (p : Packet) (s : McSerializer) : Except SerializingErr McSerializer :=
  match Packet.bodySerialize p McSerializer.new with
  | Except.error e => Except.error e
  | Except.ok length_serializer =>
    let bytes := VarInt.to_bytes p.packet_id
    match VarInt.mc_serialize ((length_serializer.output.length + bytes.length) % 2 ^ 32) s with
    | Except.error e => Except.error e
    | Except.ok s1 => Except.ok ((s1.serialize_bytes bytes).merge length_serializer)

/-- Source `StateBasedDeserializer for Packet` (`deserialize_state`): read
the frame length VarInt, carve a sub-cursor of that many bytes, read
the packet id VarInt inside it, then try the decoder registered for
the current state, direction and id.  A body-decoder failure is
discarded by the macro's `if let Ok(a) = a` and control falls through
to the final generic failure, which is also returned when no decoder
matches. -/
def Packet.deserialize_state (input : List Nat) (state : PacketState)
    (packet_direction : PacketDirection) : Except SerializingErr Packet :=
  match VarInt.mc_deserialize input with
  | Except.error e => Except.error e
  | Except.ok (length, r1) =>
    match sub_deserializer_length (toI32 length).toNat r1 with
    | Except.error e => Except.error e
    | Except.ok (sub, _) =>
      match VarInt.mc_deserialize sub with
      | Except.error e => Except.error e
      | Except.ok (packet_id, sub2) =>
        if state = PacketState.HANDSHAKING ∧ packet_direction = PacketDirection.SERVER ∧
            packet_id = 0 then
          match HandshakingBody.mc_deserialize sub2 with
          | Except.ok (a, _) => Except.ok (Packet.HANDSHAKE a)
          | Except.error _ =>
            Except.error (SerializingErr.UniqueFailure "Could not find matching type.")
        else if state = PacketState.STATUS ∧ packet_direction = PacketDirection.SERVER ∧
            packet_id = 0 then
          match StatusRequestBody.mc_deserialize sub2 with
          | Except.ok (a, _) => Except.ok (Packet.STATUS_REQUEST a)
          | Except.error _ =>
            Except.error (SerializingErr.UniqueFailure "Could not find matching type.")
        else Except.error (SerializingErr.UniqueFailure "Could not find matching type.")

end Ironcraft

namespace Ironcraft

/-- Low 7 bits as a remainder. -/
theorem and127_eq_mod (u : Nat) : u &&& 127 = u % 128 := by
  have h := Nat.and_pow_two_sub_one_eq_mod u 7
  norm_num at h
  exact h

/-- A value below 128 has no bit in common with the high mask. -/
theorem and_mask_eq_zero_of_lt {u : Nat} (w : Nat) (h : u < 128) :
    u &&& (2 ^ w - 128) = 0 := by
  have h127 : u &&& 127 = u := by
    have := Nat.and_pow_two_sub_one_of_lt_two_pow (x := u) (n := 7) (by norm_num; omega)
    norm_num at this
    exact this
  have hmask : (127 : Nat) &&& (2 ^ w - 128) = 0 := by
    apply Nat.eq_of_testBit_eq
    intro j
    rw [Nat.testBit_and]
    rcases lt_or_ge j 7 with hj | hj
    · rcases le_or_lt 7 w with hw | hw
      · have hdvd : (2 ^ 7 : Nat) ∣ (2 ^ w - 128) :=
          Nat.dvd_sub' (pow_dvd_pow 2 hw) (by norm_num)
        obtain ⟨c, hc⟩ := hdvd
        have hb : Nat.testBit (2 ^ 7 * c) j = false := by
          have h1 := Nat.testBit_mod_two_pow (2 ^ 7 * c) 7 j
          rw [Nat.mul_mod_right, Nat.zero_testBit, decide_eq_true hj, Bool.true_and] at h1
          exact h1.symm
        rw [hc, hb, Bool.and_false, Nat.zero_testBit]
      · have hz : (2 : Nat) ^ w - 128 = 0 := by
          have : (2 : Nat) ^ w ≤ 128 := by
            calc (2 : Nat) ^ w ≤ 2 ^ 7 := Nat.pow_le_pow_right (by norm_num) (by omega)
            _ = 128 := by norm_num
          omega
        rw [hz, Nat.zero_testBit, Bool.and_false]
    · have h127j : Nat.testBit 127 j = false :=
        Nat.testBit_lt_two_pow (lt_of_lt_of_le (by norm_num)
          (Nat.pow_le_pow_right (by norm_num) hj))
      rw [h127j, Bool.false_and, Nat.zero_testBit]
  calc u &&& (2 ^ w - 128) = (u &&& 127) &&& (2 ^ w - 128) := by rw [h127]
    _ = u &&& (127 &&& (2 ^ w - 128)) := Nat.and_assoc u 127 _
    _ = 0 := by rw [hmask, Nat.and_zero]

end Ironcraft

namespace Ironcraft

/-- If the high-mask bits of `u < 2 ^ w` are all clear, `u < 128`. -/
theorem lt_128_of_and_mask {u w : Nat} (hw : 7 ≤ w) (hu : u < 2 ^ w)
    (h : u &&& (2 ^ w - 128) = 0) : u < 128 := by
  have hpow : (2 : Nat) ^ 7 * 2 ^ (w - 7) = 2 ^ w := by
    rw [← pow_add]
    congr 1
    omega
  have h128w : (128 : Nat) ≤ 2 ^ w := by
    calc (128 : Nat) = 2 ^ 7 := by norm_num
    _ ≤ 2 ^ w := Nat.pow_le_pow_right (by norm_num) hw
  have hsplit : (2 : Nat) ^ w - 1 = (2 ^ w - 128) ||| 127 := by
    have hb : (127 : Nat) < 2 ^ 7 := by norm_num
    have hkey := Nat.mul_add_lt_is_or hb (2 ^ (w - 7) - 1)
    have h2 : (2 : Nat) ^ 7 * (2 ^ (w - 7) - 1) = 2 ^ w - 128 := by
      rw [Nat.mul_sub_left_distrib, hpow]
      norm_num
    rw [h2] at hkey
    omega
  have := Nat.and_pow_two_sub_one_of_lt_two_pow hu
  calc u = u &&& (2 ^ w - 1) := this.symm
    _ = u &&& ((2 ^ w - 128) ||| 127) := by rw [hsplit]
    _ = (u &&& (2 ^ w - 128)) ||| (u &&& 127) := Nat.and_or_distrib_left u _ 127
    _ = u &&& 127 := by rw [h, Nat.zero_or]
    _ = u % 128 := and127_eq_mod u
    _ < 128 := Nat.mod_lt _ (by norm_num)

/-- Bit facts about a continuation byte built from `a < 128`. -/
theorem byte_facts : ∀ a : Nat, a < 128 →
    ((a ||| 128) &&& 128 = 128 ∧ (a ||| 128) &&& 127 = a ∧ a &&& 128 = 0) := by decide

end Ironcraft

namespace Ironcraft

/-- Values below `2 ^ (7 * (k + 1))` encode to at most `k + 1`
bytes. -/
theorem varEncode_length (w : Nat) :
    ∀ k u, u < 2 ^ (7 * (k + 1)) → (varEncode w u).length ≤ k + 1 := by
  intro k
  induction k with
  | zero =>
    intro u hu
    rw [varEncode, dif_pos (and_mask_eq_zero_of_lt w (by norm_num at hu; omega))]
    simp
  | succ k IH =>
    intro u hu
    rw [varEncode]
    by_cases h : u &&& (2 ^ w - 128) = 0
    · rw [dif_pos h]
      simp
    · rw [dif_neg h]
      simp only [List.length_cons]
      have hdiv : u >>> 7 < 2 ^ (7 * (k + 1)) := by
        rw [Nat.shiftRight_eq_div_pow]
        have : u < 2 ^ (7 * (k + 1)) * 2 ^ 7 := by
          rw [← pow_add]
          calc u < 2 ^ (7 * (k + 1 + 1)) := hu
          _ ≤ 2 ^ (7 * (k + 1) + 7) := Nat.pow_le_pow_right (by norm_num) (by omega)
        omega
      have := IH (u >>> 7) hdiv
      omega

end Ironcraft

namespace Ironcraft

/-- Decoding the encoding of `u` placed at bit position `pos` extends
the accumulator with `u`'s bits, provided they fit in the width. -/
theorem varLoop_varEncode (w : Nat) (hw : 7 ≤ w) :
    ∀ u i pos, u * 2 ^ pos < 2 ^ w →
      varLoop w (varEncode w u) i pos = Except.ok (i ||| u <<< pos) := by
  intro u
  induction u using Nat.strong_induction_on with
  | _ u IH =>
    intro i pos hbound
    have hple : u ≤ u * 2 ^ pos := Nat.le_mul_of_pos_right u (Nat.two_pow_pos pos)
    have hu2w : u < 2 ^ w := lt_of_le_of_lt hple hbound
    rw [varEncode]
    by_cases h : u &&& (2 ^ w - 128) = 0
    · rw [dif_pos h]
      have hu : u < 128 := lt_128_of_and_mask hw hu2w h
      have h256 : u % 256 = u := Nat.mod_eq_of_lt (by omega)
      have hterm : u &&& 128 = 0 := (byte_facts u hu).2.2
      have h127 : u &&& 127 = u := by rw [and127_eq_mod]; exact Nat.mod_eq_of_lt hu
      have hsh : (u <<< pos) % 2 ^ w = u <<< pos := by
        rw [Nat.shiftLeft_eq]
        exact Nat.mod_eq_of_lt hbound
      simp only [varLoop, h256]
      rw [if_pos hterm, h127, hsh]
    · rw [dif_neg h]
      have hu128 : 128 ≤ u := by
        by_contra hcon
        exact h (and_mask_eq_zero_of_lt w (by omega))
      have ha : u &&& 127 < 128 := by
        rw [and127_eq_mod]
        exact Nat.mod_lt _ (by norm_num)
      obtain ⟨hb128, hb127, _⟩ := byte_facts (u &&& 127) ha
      have hposlt : pos + 7 < w := by
        have h27 : (2 : Nat) ^ 7 ≤ u := by
          norm_num
          omega
        have h1 : (2 : Nat) ^ (pos + 7) ≤ u * 2 ^ pos := by
          rw [pow_add, Nat.mul_comm (2 ^ pos) (2 ^ 7)]
          exact Nat.mul_le_mul_right _ h27
        exact (Nat.pow_lt_pow_iff_right (by norm_num)).mp (lt_of_le_of_lt h1 hbound)
      have hrecb : (u >>> 7) * 2 ^ (pos + 7) < 2 ^ w := by
        rw [Nat.shiftRight_eq_div_pow]
        have hle : u / 2 ^ 7 * 2 ^ (pos + 7) ≤ u * 2 ^ pos := by
          rw [pow_add]
          calc u / 2 ^ 7 * (2 ^ pos * 2 ^ 7) = u / 2 ^ 7 * 2 ^ 7 * 2 ^ pos := by ring
          _ ≤ u * 2 ^ pos := Nat.mul_le_mul_right _ (Nat.div_mul_le_self u (2 ^ 7))
        exact lt_of_le_of_lt hle hbound
      have hdec : u >>> 7 < u := by
        rw [Nat.shiftRight_eq_div_pow]
        exact Nat.div_lt_self (by omega) (by norm_num)
      simp only [varLoop]
      rw [hb128]
      rw [if_neg (by norm_num : ¬ (128 : Nat) = 0)]
      rw [if_neg (by omega : ¬ pos + 7 ≥ w)]
      rw [hb127]
      have h127le : (u &&& 127) * 2 ^ pos ≤ u * 2 ^ pos := by
        apply Nat.mul_le_mul_right
        rw [and127_eq_mod]
        exact Nat.mod_le u 128
      have hmod : ((u &&& 127) <<< pos) % 2 ^ w = (u &&& 127) <<< pos := by
        rw [Nat.shiftLeft_eq]
        exact Nat.mod_eq_of_lt (lt_of_le_of_lt h127le hbound)
      rw [hmod]
      rw [IH (u >>> 7) hdec (i ||| (u &&& 127) <<< pos) (pos + 7) hrecb]
      congr 1
      rw [Nat.or_assoc]
      congr 1
      rw [and127_eq_mod, Nat.shiftRight_eq_div_pow, Nat.shiftLeft_eq, Nat.shiftLeft_eq,
        Nat.shiftLeft_eq]
      have hm7 : u % 128 < 2 ^ 7 := by
        norm_num
        exact Nat.mod_lt _ (by norm_num)
      have hb : u % 128 * 2 ^ pos < 2 ^ (pos + 7) := by
        rw [pow_add, Nat.mul_comm (2 ^ pos) (2 ^ 7)]
        exact mul_lt_mul_of_pos_right hm7 (Nat.two_pow_pos pos)
      have hkey := Nat.mul_add_lt_is_or hb (u / 2 ^ 7)
      rw [Nat.or_comm, Nat.mul_comm (u / 2 ^ 7) (2 ^ (pos + 7)), ← hkey]
      have e1 : u % 128 = u % 2 ^ 7 := by norm_num
      have hdm := Nat.div_add_mod u (2 ^ 7)
      rw [e1]
      have harith : (2 ^ 7 * (u / 2 ^ 7) + u % 2 ^ 7) * 2 ^ pos = u * 2 ^ pos := by
        rw [hdm]
      calc 2 ^ (pos + 7) * (u / 2 ^ 7) + u % 2 ^ 7 * 2 ^ pos
          = (2 ^ 7 * (u / 2 ^ 7) + u % 2 ^ 7) * 2 ^ pos := by
            rw [pow_add]
            ring
      _ = u * 2 ^ pos := harith

end Ironcraft

namespace Ironcraft

/-- Round trip at width 32 for any 32-bit pattern. -/
theorem from_slice_to_bytes_32 (u : Nat) (hu : u < 2 ^ 32) :
    VarInt.from_slice (VarInt.to_bytes u) = Except.ok u := by
  unfold VarInt.from_slice VarInt.to_bytes
  have hlen : (varEncode 32 u).length ≤ 5 := by
    apply varEncode_length 32 4 u
    calc u < 2 ^ 32 := hu
    _ ≤ 2 ^ (7 * (4 + 1)) := Nat.pow_le_pow_right (by norm_num) (by norm_num)
  rw [if_neg (by omega)]
  have h := varLoop_varEncode 32 (by norm_num) u 0 0 (by simpa using hu)
  simpa using h

/-- Round trip at width 64 for any 64-bit pattern. -/
theorem from_slice_to_bytes_64 (u : Nat) (hu : u < 2 ^ 64) :
    VarLong.from_slice (VarLong.to_bytes u) = Except.ok u := by
  unfold VarLong.from_slice VarLong.to_bytes
  have hlen : (varEncode 64 u).length ≤ 10 := by
    apply varEncode_length 64 9 u
    calc u < 2 ^ 64 := hu
    _ ≤ 2 ^ (7 * (9 + 1)) := Nat.pow_le_pow_right (by norm_num) (by norm_num)
  rw [if_neg (by omega)]
  have h := varLoop_varEncode 64 (by norm_num) u 0 0 (by simpa using hu)
  simpa using h

/-- Pattern bound for `fromI32`. -/
theorem fromI32_lt (n : Int) : fromI32 n < 2 ^ 32 := by
  unfold fromI32
  have h1 : 0 ≤ n % 2 ^ 32 := Int.emod_nonneg n (by norm_num)
  have h2 : n % 2 ^ 32 < 2 ^ 32 := Int.emod_lt_of_pos n (by norm_num)
  omega

/-- Pattern bound for `fromI64`. -/
theorem fromI64_lt (n : Int) : fromI64 n < 2 ^ 64 := by
  unfold fromI64
  have h1 : 0 ≤ n % 2 ^ 64 := Int.emod_nonneg n (by norm_num)
  have h2 : n % 2 ^ 64 < 2 ^ 64 := Int.emod_lt_of_pos n (by norm_num)
  omega

end Ironcraft

namespace Ironcraft

/-- A run of continuation bytes short enough for the width decodes to
`Ok`. -/
theorem varLoop_all_cont_ok (w : Nat) :
    ∀ (bytes : List Nat) (i pos : Nat), (∀ b ∈ bytes, b &&& 128 ≠ 0) →
      pos + 7 * bytes.length < w →
      ∃ v, varLoop w bytes i pos = Except.ok v := by
  intro bytes
  induction bytes with
  | nil =>
    intro i pos _ _
    exact ⟨i, rfl⟩
  | cons b rest IHb =>
    intro i pos hcont hlen
    simp only [varLoop]
    rw [if_neg (hcont b (by simp))]
    rw [if_neg (by simp only [List.length_cons] at hlen; omega)]
    exact IHb _ (pos + 7) (fun x hx => hcont x (by simp [hx]))
      (by simp only [List.length_cons] at hlen; omega)

/-- A run of continuation bytes long enough for the width decodes to
the overflow error. -/
theorem varLoop_all_cont_err (w : Nat) :
    ∀ (bytes : List Nat) (i pos : Nat), bytes ≠ [] → (∀ b ∈ bytes, b &&& 128 ≠ 0) →
      w ≤ pos + 7 * bytes.length →
      varLoop w bytes i pos = Except.error "Bit length is too long" := by
  intro bytes
  induction bytes with
  | nil =>
    intro i pos hne _ _
    exact absurd rfl hne
  | cons b rest IHb =>
    intro i pos _ hcont hlen
    simp only [varLoop]
    rw [if_neg (hcont b (by simp))]
    cases rest with
    | nil =>
      rw [if_pos (by simp only [List.length_cons, List.length_nil] at hlen; omega)]
    | cons c rest2 =>
      by_cases hp : pos + 7 ≥ w
      · rw [if_pos hp]
      · rw [if_neg hp]
        apply IHb _ (pos + 7) (by simp) (fun x hx => hcont x (by simp [hx]))
        simp only [List.length_cons] at hlen ⊢
        omega

end Ironcraft

namespace Ironcraft

/-- C1: VarInt and VarLong round-trips. -/
theorem varint_varlong_roundtrip :
    (∀ n : Int, -(2 ^ 31) ≤ n → n < 2 ^ 31 →
      VarInt.from_slice (VarInt.to_bytes (fromI32 n)) = Except.ok (fromI32 n)) ∧
    (∀ n : Int, -(2 ^ 63) ≤ n → n < 2 ^ 63 →
      VarLong.from_slice (VarLong.to_bytes (fromI64 n)) = Except.ok (fromI64 n)) :=
  ⟨fun n _ _ => from_slice_to_bytes_32 (fromI32 n) (fromI32_lt n),
   fun n _ _ => from_slice_to_bytes_64 (fromI64 n) (fromI64_lt n)⟩

/-- Witness for C1 at `n = -1` and `n = 255`. -/
theorem varint_varlong_roundtrip_witness :
    VarInt.from_slice (VarInt.to_bytes (fromI32 (-1))) = Except.ok (fromI32 (-1)) ∧
    VarLong.from_slice (VarLong.to_bytes (fromI64 255)) = Except.ok (fromI64 255) :=
  ⟨varint_varlong_roundtrip.1 (-1) (by decide) (by decide),
   varint_varlong_roundtrip.2 255 (by decide) (by decide)⟩

/-- C8: boundary vectors in both directions. -/
theorem varint_varlong_vectors :
    (VarInt.from_slice [0xDD, 0xC7, 0x01] = Except.ok 25565 ∧
      VarInt.to_bytes 25565 = [0xDD, 0xC7, 0x01]) ∧
    (VarInt.from_slice [0xFF, 0xFF, 0x7F] = Except.ok 2097151 ∧
      VarInt.to_bytes 2097151 = [0xFF, 0xFF, 0x7F]) ∧
    (VarInt.from_slice [0xFF, 0xFF, 0xFF, 0xFF, 0x0F] = Except.ok (fromI32 (-1)) ∧
      VarInt.to_bytes (fromI32 (-1)) = [0xFF, 0xFF, 0xFF, 0xFF, 0x0F]) ∧
    (VarInt.from_slice [0x80, 0x80, 0x80, 0x80, 0x08] = Except.ok (fromI32 (-2147483648)) ∧
      VarInt.to_bytes (fromI32 (-2147483648)) = [0x80, 0x80, 0x80, 0x80, 0x08]) ∧
    (VarLong.from_slice [0xFF, 0x01] = Except.ok 255 ∧
      VarLong.to_bytes 255 = [0xFF, 0x01]) ∧
    (VarLong.from_slice [0xFF, 0xFF, 0xFF, 0xFF, 0x07] = Except.ok 2147483647 ∧
      VarLong.to_bytes 2147483647 = [0xFF, 0xFF, 0xFF, 0xFF, 0x07]) ∧
    (VarLong.from_slice [255, 255, 255, 255, 255, 255, 255, 255, 255, 1] =
        Except.ok (fromI64 (-1)) ∧
      VarLong.to_bytes (fromI64 (-1)) = [255, 255, 255, 255, 255, 255, 255, 255, 255, 1]) := by
  refine ⟨⟨by rfl, ?_⟩, ⟨by rfl, ?_⟩, ⟨by rfl, ?_⟩, ⟨by rfl, ?_⟩, ⟨by rfl, ?_⟩,
    ⟨by rfl, ?_⟩, ⟨by rfl, ?_⟩⟩
  all_goals simp [VarInt.to_bytes, VarLong.to_bytes, fromI32, fromI64, varEncode]
  all_goals decide

end Ironcraft

namespace Ironcraft

/-- C5 counterexample: a one-byte input whose byte has the
continuation bit set ends mid-number yet decodes to `Ok 0` instead of
failing; likewise for VarLong. -/
theorem varint_midstream_accepted :
    VarInt.from_slice [128] = Except.ok 0 ∧ VarLong.from_slice [128] = Except.ok 0 :=
  ⟨rfl, rfl⟩

/-- C5 amended: decoding fails on inputs longer than the byte maximum
and when the maximum number of bytes all carry the continuation bit,
but shorter all-continuation inputs are accepted with the partial
value. -/
theorem varint_varlong_failure_boundary :
    (∀ bytes : List Nat, 5 < bytes.length →
      VarInt.from_slice bytes = Except.error "Max bytes of byte array is 5. VarInts are i32") ∧
    (∀ bytes : List Nat, bytes.length = 5 → (∀ b ∈ bytes, b &&& 128 ≠ 0) →
      VarInt.from_slice bytes = Except.error "Bit length is too long") ∧
    (∀ bytes : List Nat, bytes.length ≤ 4 → (∀ b ∈ bytes, b &&& 128 ≠ 0) →
      ∃ v, VarInt.from_slice bytes = Except.ok v) ∧
    (∀ bytes : List Nat, 10 < bytes.length →
      VarLong.from_slice bytes = Except.error "Max bytes of byte array is 10. VarLongs are i64") ∧
    (∀ bytes : List Nat, bytes.length = 10 → (∀ b ∈ bytes, b &&& 128 ≠ 0) →
      VarLong.from_slice bytes = Except.error "Bit length is too long") ∧
    (∀ bytes : List Nat, bytes.length ≤ 9 → (∀ b ∈ bytes, b &&& 128 ≠ 0) →
      ∃ v, VarLong.from_slice bytes = Except.ok v) := by
  refine ⟨?_, ?_, ?_, ?_, ?_, ?_⟩
  · intro bytes h
    unfold VarInt.from_slice
    rw [if_pos h]
  · intro bytes hlen hcont
    unfold VarInt.from_slice
    rw [if_neg (by omega)]
    apply varLoop_all_cont_err 32 bytes 0 0 ?_ hcont (by omega)
    intro hnil
    rw [hnil] at hlen
    simp at hlen
  · intro bytes hlen hcont
    unfold VarInt.from_slice
    rw [if_neg (by omega)]
    exact varLoop_all_cont_ok 32 bytes 0 0 hcont (by omega)
  · intro bytes h
    unfold VarLong.from_slice
    rw [if_pos h]
  · intro bytes hlen hcont
    unfold VarLong.from_slice
    rw [if_neg (by omega)]
    apply varLoop_all_cont_err 64 bytes 0 0 ?_ hcont (by omega)
    intro hnil
    rw [hnil] at hlen
    simp at hlen
  · intro bytes hlen hcont
    unfold VarLong.from_slice
    rw [if_neg (by omega)]
    exact varLoop_all_cont_ok 64 bytes 0 0 hcont (by omega)

/-- Witness for C5's amended statement at concrete inputs, including
the 6-byte all-continuation input. -/
theorem varint_varlong_failure_boundary_witness :
    VarInt.from_slice [128, 128, 128, 128, 128, 128] =
      Except.error "Max bytes of byte array is 5. VarInts are i32" ∧
    VarInt.from_slice [128, 128, 128, 128, 128] = Except.error "Bit length is too long" ∧
    (∃ v, VarInt.from_slice [128, 128, 128, 128] = Except.ok v) ∧
    VarLong.from_slice [128, 128, 128, 128, 128, 128, 128, 128, 128, 128, 128] =
      Except.error "Max bytes of byte array is 10. VarLongs are i64" ∧
    VarLong.from_slice [128, 128, 128, 128, 128, 128, 128, 128, 128, 128] =
      Except.error "Bit length is too long" ∧
    (∃ v, VarLong.from_slice [128, 128, 128, 128, 128, 128, 128, 128, 128] = Except.ok v) :=
  ⟨varint_varlong_failure_boundary.1 _ (by decide),
   varint_varlong_failure_boundary.2.1 _ (by decide) (by decide),
   varint_varlong_failure_boundary.2.2.1 _ (by decide) (by decide),
   varint_varlong_failure_boundary.2.2.2.1 _ (by decide),
   varint_varlong_failure_boundary.2.2.2.2.1 _ (by decide) (by decide),
   varint_varlong_failure_boundary.2.2.2.2.2 _ (by decide) (by decide)⟩

/-- C10: a short slice whose first byte lacks the continuation bit
decodes to that byte's low 7 bits with trailing bytes ignored, while
any slice longer than 5 bytes is rejected up front. -/
theorem varint_from_slice_prefix_behavior :
    (∀ (b : Nat) (rest : List Nat), (b :: rest).length ≤ 5 → b &&& 128 = 0 →
      VarInt.from_slice (b :: rest) = Except.ok (b &&& 127)) ∧
    (∀ bytes : List Nat, 5 < bytes.length →
      VarInt.from_slice bytes = Except.error "Max bytes of byte array is 5. VarInts are i32") := by
  constructor
  · intro b rest hlen hterm
    unfold VarInt.from_slice
    rw [if_neg (by omega)]
    simp only [varLoop]
    rw [if_pos hterm]
    have ha : b &&& 127 < 128 := by
      rw [and127_eq_mod]
      exact Nat.mod_lt _ (by norm_num)
    have hmod : ((b &&& 127) <<< 0) % 2 ^ 32 = b &&& 127 := by
      rw [Nat.shiftLeft_zero]
      exact Nat.mod_eq_of_lt (by omega)
    rw [hmod, Nat.zero_or]
  · intro bytes h
    unfold VarInt.from_slice
    rw [if_pos h]

/-- Witness for C10 at a terminated first byte with trailing garbage,
and at a 6-byte input starting with a complete VarInt. -/
theorem varint_from_slice_prefix_behavior_witness :
    VarInt.from_slice [127, 255, 255, 255, 255] = Except.ok 127 ∧
    VarInt.from_slice [0, 0, 0, 0, 0, 0] =
      Except.error "Max bytes of byte array is 5. VarInts are i32" :=
  ⟨by
    have h := varint_from_slice_prefix_behavior.1 127 [255, 255, 255, 255]
      (by decide) (by decide)
    simpa using h,
   varint_from_slice_prefix_behavior.2 _ (by decide)⟩

/-- C9: `PacketState::from_id` maps 1 to Status, 2 to Login and
everything else to None. -/
theorem packet_state_from_id_spec :
    PacketState.from_id 1 = some PacketState.STATUS ∧
    PacketState.from_id 2 = some PacketState.LOGIN ∧
    ∀ id : Nat, id ≠ 1 → id ≠ 2 → PacketState.from_id id = none := by
  refine ⟨rfl, rfl, ?_⟩
  intro id h1 h2
  match id with
  | 0 => rfl
  | 1 => exact absurd rfl h1
  | 2 => exact absurd rfl h2
  | (n + 3) => rfl

/-- Witness for C9's universal part at id 7. -/
theorem packet_state_from_id_spec_witness :
    PacketState.from_id 7 = none :=
  packet_state_from_id_spec.2.2 7 (by decide) (by decide)

end Ironcraft

namespace Ironcraft

/-- C3: serializing the empty compound with an empty root name gives
the four bytes 10, 0, 0, 0, and deserializing them panics at the
source's todo, so the NBT round trip is a panic rather than the
identity. -/
theorem nbt_compound_roundtrip_panics :
    NbtCompound.mc_serialize (NbtCompound.new []) McSerializer.new =
      Outcome.ok ⟨[10, 0, 0, 0]⟩ ∧
    NbtCompound.mc_deserialize [10, 0, 0, 0] = Outcome.panic "not yet implemented" :=
  ⟨rfl, rfl⟩

/-- C4 counterexample: deserializing a compound type byte panics at
the source's todo instead of returning an error value. -/
theorem nbt_tag_compound_decode_panics :
    NbtTag.mc_deserialize [10] = Outcome.panic "not yet implemented" := by
  simp [NbtTag.mc_deserialize, NbtTag.mc_deserializeF, readU8]

theorem tagF_no_panic (fuel : Nat) (b : Nat) (rest : List Nat) (h9 : b ≠ 9)
    (h10 : b ≠ 10) :
    (NbtTag.mc_deserializeF (fuel + 1) (b :: rest)).isPanic = false := by
  unfold NbtTag.mc_deserializeF
  simp only [readU8]
  split <;> first | rfl | omega | (split <;> rfl)

end Ironcraft

namespace Ironcraft

/-- C4 amended: deserialization panics exactly at the unimplemented
compound paths, and the packet conversion panics on a variant
mismatch; all other type bytes produce values or errors. -/
theorem nbt_panic_boundary :
    (∀ input : List Nat, input.head? ≠ some 9 → input.head? ≠ some 10 →
      (NbtTag.mc_deserialize input).isPanic = false) ∧
    (∀ rest : List Nat,
      NbtTag.mc_deserialize (10 :: rest) = Outcome.panic "not yet implemented") ∧
    (∀ (b : Nat) (rest : List Nat),
      NbtCompound.mc_deserialize (b :: rest) = Outcome.panic "not yet implemented") ∧
    HandshakingBody.from_packet (Packet.STATUS_REQUEST ⟨⟩) =
      Outcome.panic "Invalid conversion" := by
  refine ⟨?_, ?_, ?_, rfl⟩
  · intro input h9 h10
    match input with
    | [] => simp [NbtTag.mc_deserialize, NbtTag.mc_deserializeF, readU8, Outcome.isPanic]
    | b :: rest =>
      have hb9 : b ≠ 9 := by
        intro h
        exact h9 (by simp [h])
      have hb10 : b ≠ 10 := by
        intro h
        exact h10 (by simp [h])
      exact tagF_no_panic (rest.length + 1) b rest hb9 hb10
  · intro rest
    simp [NbtTag.mc_deserialize, NbtTag.mc_deserializeF, readU8]
  · intro b rest
    rfl

/-- Witness for C4's amended statement: a Byte tag input is decoded
without panicking; compound inputs panic. -/
theorem nbt_panic_boundary_witness :
    (NbtTag.mc_deserialize [1, 5]).isPanic = false ∧
    NbtTag.mc_deserialize [10, 0] = Outcome.panic "not yet implemented" ∧
    NbtCompound.mc_deserialize [10] = Outcome.panic "not yet implemented" :=
  ⟨nbt_panic_boundary.1 [1, 5] (by decide) (by decide),
   nbt_panic_boundary.2.1 [0],
   nbt_panic_boundary.2.2.1 10 []⟩

/-- C7 counterexample: `add_tag` pushes an End tag into a fresh list,
yielding a non-empty list whose type id is End. -/
theorem nbt_list_add_tag_end_violation :
    NbtList.add_tag NbtList.new NbtTag.End = Except.ok ⟨0, [NbtTag.End], 0⟩ ∧
    ¬ listInvariant ⟨0, [NbtTag.End], 0⟩ := by
  constructor
  · rfl
  · intro hinv
    exact hinv.2 (by simp [NbtList.list]) rfl

end Ironcraft

namespace Ironcraft

/-- The deserialization element loop on a fresh list with a non-End
element type never returns a list: `add_tag` always rejects because
`NbtList::new` is typed End. -/
theorem nbtListLoopF_new_ok (fuel k t : Nat) (input : List Nat) (l : NbtList)
    (rest : List Nat) (ht : t ≠ 0)
    (h : nbtListLoopF fuel k t NbtList.new input = Outcome.ok (l, rest)) :
    l = NbtList.new := by
  cases k with
  | zero =>
    unfold nbtListLoopF at h
    injection h with h2
    injection h2 with h3 h4
    exact h3.symm
  | succ k =>
    exfalso
    unfold nbtListLoopF at h
    split at h
    · split at h
      · simp at h
      · rename_i hres hne
        split at h
        · simp at h
        · rename_i list2 heq
          simp only [ne_eq, Decidable.not_not] at hne
          unfold NbtList.add_tag at heq
          rw [if_pos (by simp only [NbtList.new, NbtList.type_id]; omega)] at heq
          simp at heq
    · simp at h
    · simp at h
    · simp at h

end Ironcraft

namespace Ironcraft

/-- C7 amended: `new`, `add` and successful `mc_deserialize` maintain
the full invariant (deserialization in fact only ever returns a fresh
list); `add_tag` maintains that all elements share the list's type id,
but (unlike `add`) can make a fresh list non-empty with type id End. -/
theorem nbt_list_invariant_preservation :
    listInvariant NbtList.new ∧
    (∀ (l : NbtList) (t : NbtTag) (l2 : NbtList), listInvariant l →
      NbtList.add l t = Except.ok l2 → listInvariant l2) ∧
    (∀ (l : NbtList) (t : NbtTag) (l2 : NbtList),
      (∀ tag ∈ l.list, tag.get_type_id = l.type_id) →
      NbtList.add_tag l t = Except.ok l2 →
      ∀ tag ∈ l2.list, tag.get_type_id = l2.type_id) ∧
    (∀ (input : List Nat) (l : NbtList) (rest : List Nat),
      NbtList.mc_deserialize input = Outcome.ok (l, rest) → l = NbtList.new) := by
  refine ⟨?_, ?_, ?_, ?_⟩
  · constructor
    · intro tag htag
      simp [NbtList.new, NbtList.list] at htag
    · intro hne
      exact (hne rfl).elim
  · intro l t l2 hinv hadd
    obtain ⟨lt, ll, lc⟩ := l
    unfold NbtList.add at hadd
    by_cases h0 : t.get_type_id = 0
    · rw [if_pos h0] at hadd
      simp at hadd
    · rw [if_neg h0] at hadd
      simp only [NbtList.type_id, NbtList.list, NbtList.count] at hadd
      by_cases hl0 : lt = 0
      · rw [if_pos hl0] at hadd
        injection hadd with h2
        subst h2
        have hempty : ll = [] := by
          by_contra hne
          exact (hinv.2 (by simpa [NbtList.list] using hne)) (by simpa [NbtList.type_id] using hl0)
        subst hempty
        constructor
        · intro tag htag
          simp only [NbtList.list, List.nil_append, List.mem_singleton] at htag
          subst htag
          simp [NbtList.type_id]
        · intro _
          simpa [NbtList.type_id] using h0
      · rw [if_neg hl0] at hadd
        by_cases hmm : lt ≠ t.get_type_id
        · rw [if_pos hmm] at hadd
          simp at hadd
        · rw [if_neg hmm] at hadd
          injection hadd with h2
          subst h2
          simp only [ne_eq, Decidable.not_not] at hmm
          constructor
          · intro tag htag
            simp only [NbtList.list, List.mem_append, List.mem_singleton] at htag
            simp only [NbtList.type_id]
            rcases htag with hin | hin
            · have := hinv.1 tag (by simpa [NbtList.list] using hin)
              simpa [NbtList.type_id] using this
            · rw [hin, ← hmm]
          · intro _
            simpa [NbtList.type_id] using hl0
  · intro l t l2 hall hadd
    obtain ⟨lt, ll, lc⟩ := l
    unfold NbtList.add_tag at hadd
    simp only [NbtList.type_id, NbtList.list, NbtList.count] at hadd
    by_cases hne : t.get_type_id ≠ lt
    · rw [if_pos hne] at hadd
      simp at hadd
    · rw [if_neg hne] at hadd
      injection hadd with h2
      subst h2
      simp only [ne_eq, Decidable.not_not] at hne
      intro tag htag
      simp only [NbtList.list, List.mem_append, List.mem_singleton] at htag
      simp only [NbtList.type_id]
      rcases htag with hin | hin
      · have := hall tag (by simpa [NbtList.list] using hin)
        simpa [NbtList.type_id] using this
      · rw [hin, hne]
  · intro input l rest h
    unfold NbtList.mc_deserialize NbtList.mc_deserializeF at h
    split at h
    · simp at h
    · rename_i t rest1 hread
      split at h
      · simp at h
      · rename_i len rest2 hread2
        split at h
        · simp at h
        · rename_i hguard
          rcases Nat.eq_zero_or_pos (toI32 len).toNat with hz | hpos
          · rw [hz] at h
            unfold nbtListLoopF at h
            injection h with h2
            injection h2 with h3 _
            exact h3.symm
          · apply nbtListLoopF_new_ok _ _ _ _ _ _ ?_ h
            intro ht0
            exact hguard ⟨ht0, by omega⟩

end Ironcraft

namespace Ironcraft

/-- Witness for C7's amended statement: `add` on a fresh list yields
an invariant-satisfying list. -/
theorem nbt_list_invariant_preservation_witness :
    listInvariant ⟨1, [NbtTag.Byte 1], 0⟩ :=
  nbt_list_invariant_preservation.2.1 NbtList.new (NbtTag.Byte 1) ⟨1, [NbtTag.Byte 1], 0⟩
    nbt_list_invariant_preservation.1 (by rfl)

/-- The body serializers append a payload determined by the packet. -/
theorem bodySerialize_eq (p : Packet) (s : McSerializer) :
    Packet.bodySerialize p s = Except.ok ⟨s.output ++ Packet.payloadBytes p⟩ := by
  cases p with
  | HANDSHAKE b =>
    simp [Packet.bodySerialize, HandshakingBody.mc_serialize, VarInt.mc_serialize,
      StringField.mc_serialize, U16.mc_serialize, McSerializer.serialize_bytes,
      Packet.payloadBytes, List.append_assoc]
  | STATUS_REQUEST b =>
    simp [Packet.bodySerialize, StatusRequestBody.mc_serialize, Packet.payloadBytes]

end Ironcraft

namespace Ironcraft

/-- C2: every serialized frame is the VarInt length, then the VarInt
packet id, then the payload, with the length value counting the id
and payload bytes. -/
theorem packet_mc_serialize_framing (p : Packet) (s : McSerializer)
    (h : (Packet.payloadBytes p).length + (VarInt.to_bytes p.packet_id).length < 2 ^ 32) :
    Packet.mc_serialize p s = Except.ok ⟨s.output ++
      VarInt.to_bytes
        ((Packet.payloadBytes p).length + (VarInt.to_bytes p.packet_id).length) ++
      VarInt.to_bytes p.packet_id ++ Packet.payloadBytes p⟩ := by
  unfold Packet.mc_serialize
  rw [bodySerialize_eq]
  simp only [VarInt.mc_serialize, McSerializer.serialize_bytes, McSerializer.merge,
    McSerializer.new, List.nil_append]
  rw [Nat.mod_eq_of_lt h]

end Ironcraft

namespace Ironcraft

/-- Witness for C2 at the spec's Handshake example
(protocol 758, "localhost", port 25565, next_state 1). -/
theorem packet_mc_serialize_framing_witness :
    Packet.mc_serialize
      (Packet.HANDSHAKE ⟨758, [108, 111, 99, 97, 108, 104, 111, 115, 116], 25565, 1⟩)
      McSerializer.new =
    Except.ok ⟨[16, 0, 246, 5, 9, 108, 111, 99, 97, 108, 104, 111, 115, 116, 99, 221, 1]⟩ := by
  have e758 : VarInt.to_bytes 758 = [246, 5] := by
    simp [VarInt.to_bytes, varEncode]
    decide
  have e9 : VarInt.to_bytes 9 = [9] := by
    simp [VarInt.to_bytes, varEncode]
    decide
  have e1 : VarInt.to_bytes 1 = [1] := by
    simp [VarInt.to_bytes, varEncode]
  have e0 : VarInt.to_bytes 0 = [0] := by
    simp [VarInt.to_bytes, varEncode]
  have e16 : VarInt.to_bytes 16 = [16] := by
    simp [VarInt.to_bytes, varEncode]
    decide
  have hp : Packet.payloadBytes
      (Packet.HANDSHAKE ⟨758, [108, 111, 99, 97, 108, 104, 111, 115, 116], 25565, 1⟩) =
      [246, 5, 9, 108, 111, 99, 97, 108, 104, 111, 115, 116, 99, 221, 1] := by
    simp only [Packet.payloadBytes]
    norm_num [beBytes]
    rw [e758, e9, e1]
    rfl
  rw [packet_mc_serialize_framing _ _ ?_]
  · rw [hp]
    simp [Packet.packet_id, e0, e16, McSerializer.new]
  · rw [hp]
    simp [Packet.packet_id, e0]

end Ironcraft

namespace Ironcraft

/-- C6 counterexample: a Handshake frame whose payload is empty makes
the registered body decoder fail with `InputEnded`, but
`deserialize_state` returns the generic failure instead of that codec
error. -/
theorem deserialize_state_swallows_codec_error :
    Packet.deserialize_state [1, 0] PacketState.HANDSHAKING PacketDirection.SERVER =
      Except.error (SerializingErr.UniqueFailure "Could not find matching type.") ∧
    HandshakingBody.mc_deserialize [] = Except.error SerializingErr.InputEnded := by
  constructor <;> rfl

/-- C6 amended: whenever the frame parses but the matched decoder's
payload decode fails, the codec error is discarded and the same
generic failure is returned as for an unknown packet id. -/
theorem deserialize_state_generic_failure :
    ∀ payload : List Nat, payload.length ≤ 126 →
      (∃ e, HandshakingBody.mc_deserialize payload = Except.error e) →
      Packet.deserialize_state ((1 + payload.length) :: 0 :: payload)
        PacketState.HANDSHAKING PacketDirection.SERVER =
        Except.error (SerializingErr.UniqueFailure "Could not find matching type.") := by
  intro payload hlen he
  obtain ⟨e, he⟩ := he
  have hb : (1 + payload.length) &&& 128 = 0 := (byte_facts _ (by omega)).2.2
  have h127 : (1 + payload.length) &&& 127 = 1 + payload.length := by
    rw [and127_eq_mod]
    exact Nat.mod_eq_of_lt (by omega)
  have h1len : 1 + payload.length < 2 ^ 32 := by
    have : (2 : Nat) ^ 32 = 4294967296 := by norm_num
    omega
  have hlen0 : VarInt.mc_deserialize_loop ((1 + payload.length) :: 0 :: payload) 0 0 =
      Except.ok (1 + payload.length, 0 :: payload) := by
    unfold VarInt.mc_deserialize_loop
    rw [if_pos hb, h127, Nat.shiftLeft_zero, Nat.mod_eq_of_lt h1len, Nat.zero_or]
  have htoi : toI32 (1 + payload.length) = (1 + payload.length : Nat) := by
    unfold toI32
    rw [if_pos ?_]
    have : (2 : Nat) ^ 31 = 2147483648 := by norm_num
    omega
  have hsubeq : sub_deserializer_length (1 + payload.length) (0 :: payload) =
      Except.ok (0 :: payload, []) := by
    unfold sub_deserializer_length
    rw [if_pos (by simp only [List.length_cons]; omega)]
    rw [List.take_of_length_le (by simp only [List.length_cons]; omega)]
    rw [List.drop_eq_nil_of_le (by simp only [List.length_cons]; omega)]
  have hid : VarInt.mc_deserialize_loop (0 :: payload) 0 0 = Except.ok (0, payload) := by
    unfold VarInt.mc_deserialize_loop
    rw [if_pos (by decide : (0 : Nat) &&& 128 = 0)]
    simp
  have hcast : ((1 : Int) + (payload.length : Int)).toNat = 1 + payload.length := by
    omega
  unfold Packet.deserialize_state
  simp [VarInt.mc_deserialize, hlen0, htoi, Int.toNat_ofNat, hcast, hsubeq, hid, he]

end Ironcraft

namespace Ironcraft

/-- Witness for C6's amended statement at a one-byte malformed
Handshake payload. -/
theorem deserialize_state_generic_failure_witness :
    Packet.deserialize_state [2, 0, 5] PacketState.HANDSHAKING PacketDirection.SERVER =
      Except.error (SerializingErr.UniqueFailure "Could not find matching type.") :=
  deserialize_state_generic_failure [5] (by decide) ⟨SerializingErr.InputEnded, by rfl⟩

end Ironcraft
